import Mathlib

/-!
Verification of the nMigen value-algebra specification.

The repository's `nmigen/hdl/ast.py` module (shapes, value nodes, the
pattern matcher, `Array`, `UserValue`) is exercised by
`nmigen/test/test_hdl_ast.py`; its behaviour is modelled here from the
specification (sections 3, 4.1, 4.2, 4.3 and 7 of `spec.md`).  The
constraint-rendering function `compose_xdc_from_signal` is translated
directly from `nmigen/build/platform.py`.
-/

/-! ## Shapes and width/signedness inference (spec section 4.1) -/

/-- Modelled from the spec: a `Shape` is a `(width, signed)` pair
(`nmigen/hdl/ast.py` is not in the sources; spec section 3). -/
structure Shape where
  width : Nat
  signed : Bool
  deriving DecidableEq, Repr

/-- Modelled from the spec: result shape of binary bitwise operators.
"if `s1 == s2`, result signedness = `s1`.  If differing, result is signed
and the unsigned operand is treated as if widened by one extra zero bit
before comparison", width `max(w1 + (s2 and not s1), w2 + (s1 and not s2))`. -/
def bitwiseBinaryShape (a b : Shape) : Shape :=
  ⟨max (a.width + (if b.signed && !a.signed then 1 else 0))
       (b.width + (if a.signed && !b.signed then 1 else 0)),
   a.signed || b.signed⟩

/-- Modelled from the spec: result shape of `+` and `-`; the bitwise
promotion rule plus one carry bit. -/
def addShape (a b : Shape) : Shape :=
  ⟨(bitwiseBinaryShape a b).width + 1, (bitwiseBinaryShape a b).signed⟩

/-- Modelled from the spec: the largest value representable in a shape. -/
def shapeMaxVal (s : Shape) : Int :=
  if s.signed then 2 ^ (s.width - 1) - 1 else 2 ^ s.width - 1

/-- Modelled from the spec: the smallest value representable in a shape. -/
def shapeMinVal (s : Shape) : Int :=
  if s.signed then -(2 ^ (s.width - 1)) else 0

/-- Modelled from the spec: shift-left by a dynamic amount gives an
unsigned result of width "operand width + maximum representable shift
magnitude (derived from the shift-amount operand's own shape, accounting
for sign)". -/
def shlShape (a b : Shape) : Shape :=
  ⟨a.width + (shapeMaxVal b).toNat, false⟩

/-- Modelled from the spec: shift-right by a dynamic amount gives
width "operand width minus the minimum representable (non-negative) shift
magnitude, floored at the operand width" (a signed amount can be negative,
which widens the result). -/
def shrShape (a b : Shape) : Shape :=
  ⟨((a.width : Int) - shapeMinVal b).toNat, false⟩

/-! ## Literal constants -/

/-- Bit length of a natural number, with explicit fuel so that the kernel
can evaluate it (`bitLen n` needs at most `n` halving steps). -/
def bitLenAux : Nat → Nat → Nat
  | 0, _ => 0
  | _ + 1, 0 => 0
  | fuel + 1, n + 1 => bitLenAux fuel ((n + 1) / 2) + 1

/-- Bit length: number of binary digits of `n` (0 for 0). -/
def bitLen (n : Nat) : Nat := bitLenAux n n

/-- Modelled from the spec: "a Const whose width is the minimum number of
bits to represent the integer's magnitude (0 and 1 fit in 1 bit), signed
if negative"; a negative number needs a sign bit on top of the magnitude
bits. -/
def bitsFor (v : Int) : Nat :=
  if 0 < v then bitLen v.toNat else bitLen ((-v).toNat - 1) + 1

/-- Modelled from the spec: shape inferred for a bare integer literal. -/
def constShapeOf (v : Int) : Shape :=
  ⟨bitsFor v, decide (v < 0)⟩

/-- Modelled from the spec and `ConstTestCase.test_normalization`:
a constant's value is reduced modulo `2^width`, and for a signed shape a
residue with the sign bit set wraps into the negative half of the
two's-complement range. -/
def constNormalize (value : Int) (width : Nat) (signed : Bool) : Int :=
  let m := value % (2 : Int) ^ width
  if signed ∧ (2 : Int) ^ (width - 1) ≤ m then m - (2 : Int) ^ width else m

/-! ## Value nodes (spec section 3) -/

/-- Binary operator kinds needed by the claims under scrutiny. -/
inductive BinOp where
  | add
  | and
  | eq
  | shl
  | shr
  deriving DecidableEq, Repr

/-- Modelled from the spec: the value-node algebra (the node kinds the
claims exercise: constants, named signals, operator application,
concatenation, the `any` reduction, and slices). -/
inductive Value where
  | const (value : Int) (width : Nat) (signed : Bool)
  | signal (name : String) (width : Nat) (signed : Bool)
  | binOp (op : BinOp) (a b : Value)
  | reduceAny (a : Value)
  | cat (parts : List Value)
  | slice (a : Value) (start : Nat) (stop : Nat)

/-- Modelled from the spec: a literal integer operand "appearing beside a
Value Node" is wrapped as a `Const` of its inferred shape. -/
def wrapConst (v : Int) : Value :=
  .const (constNormalize v (bitsFor v) (decide (v < 0))) (bitsFor v) (decide (v < 0))

mutual

/-- Modelled from the spec: construction-time shape inference for value
nodes (spec section 4.1). -/
def shapeOf : Value → Shape
  | .const _ w s => ⟨w, s⟩
  | .signal _ w s => ⟨w, s⟩
  | .binOp .add a b => addShape (shapeOf a) (shapeOf b)
  | .binOp .and a b => bitwiseBinaryShape (shapeOf a) (shapeOf b)
  | .binOp .eq _ _ => ⟨1, false⟩
  | .binOp .shl a b => shlShape (shapeOf a) (shapeOf b)
  | .binOp .shr a b => shrShape (shapeOf a) (shapeOf b)
  | .reduceAny _ => ⟨1, false⟩
  | .cat parts => ⟨catWidth parts, false⟩
  | .slice _ start stop => ⟨stop - start, false⟩

/-- Total width of a concatenation, least-significant operand first. -/
def catWidth : List Value → Nat
  | [] => 0
  | v :: vs => (shapeOf v).width + catWidth vs

end

/-! ## Static bit indexing (spec sections 3 and 7) -/

/-- A static index out of range; the error carries "both the offending
index and the operand's width" as the spec's Range-error taxonomy
requires. -/
inductive IndexErr where
  | range (index : Int) (width : Nat)
  deriving DecidableEq, Repr

/-- Modelled from the spec: indexing a value with a static integer.  A
negative index is resolved against the operand's width; an in-range index
yields a one-bit `Slice`, an out-of-range one a Range error. -/
def valueGetItem (v : Value) (i : Int) : Except IndexErr Value :=
  let w : Int := ((shapeOf v).width : Int)
  let j : Int := if i < 0 then i + w else i
  if 0 ≤ j ∧ j < w then .ok (.slice v j.toNat (j.toNat + 1))
  else .error (.range i (shapeOf v).width)

/-! ## Pattern matcher (spec section 4.2) -/

/-- A match pattern: a bare integer or a bit-string of `0`/`1`/`-`
characters (enumerated values reduce to one of these two forms). -/
inductive PatternM where
  | intPat (v : Int)
  | strPat (s : String)
  deriving DecidableEq, Repr

/-- Fatal pattern-matcher errors: a bit-string with characters other than
`0`, `1` and `-` (the spec's Type-error taxonomy), or a bit-string whose
length differs from the matched value's width (the spec's length-mismatch
Range wording); both carry the offending pattern. -/
inductive MatchErr where
  | invalidBits (pattern : String)
  | widthMismatch (pattern : String) (width : Nat)
  deriving DecidableEq, Repr

/-- Non-fatal advisory warnings of the matcher: an integer pattern wider
than the matched value can never compare true. -/
inductive MatchWarn where
  | neverTrue (pattern : Int) (width : Nat)
  deriving DecidableEq, Repr

/-- The compiled match expression together with the advisory warnings
surfaced while building it (warnings never abort construction). -/
structure MatchOut where
  node : Value
  warns : List MatchWarn

/-- Does a bit-string contain a character other than `0`, `1`, `-`? -/
def hasInvalidBit (p : String) : Bool :=
  p.data.any fun c => !(c == '0' || c == '1' || c == '-')

/-- Mask of a bit-string pattern: a 1 in every non-don't-care position,
most significant character first. -/
def patMask (cs : List Char) : Int :=
  cs.foldl (fun acc c => acc * 2 + (if c = '-' then 0 else 1)) 0

/-- Literal value of a bit-string pattern with don't-care bits cleared. -/
def patValue (cs : List Char) : Int :=
  cs.foldl (fun acc c => acc * 2 + (if c = '1' then 1 else 0)) 0

/-- Modelled from the spec: compilation of a single pattern against a
matched value.  A bit-string must consist of `0`/`1`/`-` and have exactly
the value's width, and compiles to `(value & mask) == literal`; a bare
integer compiles to a direct equality, with a never-true advisory warning
when it is wider than the value. -/
def compileOne (sig : Value) (p : PatternM) : Except MatchErr (Value × List MatchWarn) :=
  let width := (shapeOf sig).width
  match p with
  | .intPat v =>
      let warns := if width < bitsFor v then [MatchWarn.neverTrue v width] else []
      .ok (.binOp .eq sig (wrapConst v), warns)
  | .strPat s =>
      if hasInvalidBit s then .error (.invalidBits s)
      else if s.length = width then
        .ok (.binOp .eq (.binOp .and sig (.const (patMask s.data) width false))
                        (.const (patValue s.data) width false), [])
      else .error (.widthMismatch s width)

/-- Compile every pattern in order, stopping at the first fatal error. -/
def compileAll (sig : Value) : List PatternM → Except MatchErr (List (Value × List MatchWarn))
  | [] => .ok []
  | p :: ps =>
      match compileOne sig p with
      | .error e => .error e
      | .ok r =>
          match compileAll sig ps with
          | .error e => .error e
          | .ok rs => .ok (r :: rs)

/-- Modelled from the spec: `matches(signal, patterns...)` compiles to
"empty pattern list → constant false; exactly one equality pattern →
direct equality node; multiple patterns → an any-reduction over a
concatenation of per-pattern equality nodes". -/
def matchesV (sig : Value) (ps : List PatternM) : Except MatchErr MatchOut :=
  match compileAll sig ps with
  | .error e => .error e
  | .ok rs =>
      let node := match rs.map Prod.fst with
        | [] => Value.const 0 1 false
        | [m] => m
        | ms => Value.reduceAny (.cat ms)
      .ok ⟨node, (rs.map Prod.snd).flatten⟩

/-! ## Array and the freeze transition (spec section 4.3) -/

/-- Modelled from the spec: an `Array` is a mutable ordered sequence of
elements; `frozenAt` records the dynamic index that first froze it
(`none` while still mutable). -/
structure ArrayM where
  elems : List Int
  frozenAt : Option String

/-- Modelled from the spec: the `ArrayProxy` node produced by reading an
Array with a dynamic index. -/
structure ArrayProxy where
  elems : List Int
  index : String
  deriving DecidableEq, Repr

/-- A mutation attempted after the freeze; the error references which
indexing triggered the freeze. -/
inductive MutErr where
  | mutationAfterFreeze (trigger : String)
  deriving DecidableEq, Repr

/-- Modelled from the spec: reading with a literal index returns the
stored element directly and leaves the Array untouched. -/
def arrGetLit (a : ArrayM) (i : Nat) : Option Int × ArrayM :=
  (a.elems.get? i, a)

/-- Modelled from the spec: reading with a dynamic index wraps the
elements in an `ArrayProxy` and freezes the Array; an already-frozen
Array keeps its original freeze trigger. -/
def arrGetDyn (a : ArrayM) (idx : String) : ArrayProxy × ArrayM :=
  (⟨a.elems, idx⟩, ⟨a.elems, some (a.frozenAt.getD idx)⟩)

/-- Modelled from the spec: element assignment fails once frozen. -/
def arrSet (a : ArrayM) (i : Nat) (v : Int) : Except MutErr ArrayM :=
  match a.frozenAt with
  | some t => .error (.mutationAfterFreeze t)
  | none => .ok ⟨a.elems.set i v, none⟩

/-- Modelled from the spec: element deletion fails once frozen. -/
def arrDel (a : ArrayM) (i : Nat) : Except MutErr ArrayM :=
  match a.frozenAt with
  | some t => .error (.mutationAfterFreeze t)
  | none => .ok ⟨a.elems.eraseIdx i, none⟩

/-- Modelled from the spec: element insertion fails once frozen. -/
def arrInsert (a : ArrayM) (i : Nat) (v : Int) : Except MutErr ArrayM :=
  match a.frozenAt with
  | some t => .error (.mutationAfterFreeze t)
  | none => .ok ⟨a.elems.insertIdx i v, none⟩

/-- The operations observable on an Array. -/
inductive ArrOp where
  | getLit (i : Nat)
  | getDyn (idx : String)
  | set (i : Nat) (v : Int)
  | del (i : Nat)
  | insert (i : Nat) (v : Int)

/-- State transition of an Array under one operation (a failing mutation
leaves the Array unchanged). -/
def stepArr (a : ArrayM) : ArrOp → ArrayM
  | .getLit i => (arrGetLit a i).2
  | .getDyn idx => (arrGetDyn a idx).2
  | .set i v => match arrSet a i v with | .ok b => b | .error _ => a
  | .del i => match arrDel a i with | .ok b => b | .error _ => a
  | .insert i v => match arrInsert a i v with | .ok b => b | .error _ => a

/-! ## UserValue memoization (spec sections 3 and 4) -/

/-- Modelled from the spec: the mutable state of a `UserValueRef`: the
underlying data its deferred computation reads (`env`, standing for the
mutable attributes of the user object), the one-shot cache, and how many
times the computation has been invoked. -/
structure UVState where
  env : Nat
  cache : Option Value
  count : Nat

/-- Queries observable on a `UserValueRef`: querying its shape or lowered
value (both go through the same lazy lowering), or mutating the
underlying data the computation would read. -/
inductive UVOp where
  | query
  | setEnv (n : Nat)

/-- Modelled from the spec: "a deferred computation that is invoked at
most once and cached". -/
def lazyLower (lower : Nat → Value) (st : UVState) : Value × UVState :=
  match st.cache with
  | some v => (v, st)
  | none =>
      let v := lower st.env
      (v, ⟨st.env, some v, st.count + 1⟩)

/-- State transition of a `UserValueRef` under one observable event. -/
def stepUV (lower : Nat → Value) (st : UVState) : UVOp → UVState
  | .query => (lazyLower lower st).2
  | .setEnv n => ⟨n, st.cache, st.count⟩

/-- Run a sequence of events against a `UserValueRef`. -/
def runUV (lower : Nat → Value) : UVState → List UVOp → UVState
  | st, [] => st
  | st, op :: ops => runUV lower (stepUV lower st op) ops

/-- Modelled from the spec: the reported shape is the shape of the
(memoized) lowering. -/
def uvShape (lower : Nat → Value) (st : UVState) : Shape :=
  shapeOf (lazyLower lower st).1

/-! ## XDC constraint rendering, from `nmigen/build/platform.py` -/

/-- Uppercase an ASCII letter (the effect of Python's `str.upper` on the
identifiers used here). -/
def upperChar (c : Char) : Char :=
  if c.isLower then Char.ofNat (c.toNat - 32) else c

/-- Strip leading and trailing whitespace from a character list (the
effect of Python's `str.strip`). -/
def trimChars (cs : List Char) : List Char :=
  ((cs.dropWhile Char.isWhitespace).reverse.dropWhile Char.isWhitespace).reverse

/-- Split a character list on `=` (the effect of `str.split("=")`). -/
def splitOnEqAux : List Char → List Char → List (List Char)
  | [], acc => [acc.reverse]
  | c :: cs, acc =>
      if c = '=' then acc.reverse :: splitOnEqAux cs []
      else splitOnEqAux cs (c :: acc)

/-- Join character lists with a single space (the effect of
`" ".join(...)`). -/
def joinSpace : List (List Char) → List Char
  | [] => []
  | [x] => x
  | x :: xs => x ++ ' ' :: joinSpace xs

/-- The concrete `Constraint` subclasses of `nmigen/build/platform.py`
that render into XDC directives. -/
inductive Constraint where
  | pins (identifiers : List String)
  | iostandard (name : String)
  | drive (strength : Int)
  | misc (misc : String)
  deriving DecidableEq, Repr

/-- `Misc` built from a `(property, bool)` tuple: the property is
stripped and upper-cased and the boolean becomes `TRUE`/`FALSE`. -/
def miscOfPairBool (prop : String) (value : Bool) : Constraint :=
  .misc (String.mk ((trimChars prop.data).map upperChar) ++ "=" ++
         (if value then "TRUE" else "FALSE"))

/-- `Pins.get_xdc` for the multi-pin case: one `PACKAGE_PIN` line per
identifier, against the indexed port name. -/
def pinsXdcAux : List String → Nat → String → String
  | [], _, _ => ""
  | p :: ps, i, name =>
      "set_property PACKAGE_PIN " ++ p ++ " [get_ports " ++ name ++ "[" ++
        toString i ++ "]]\n" ++ pinsXdcAux ps (i + 1) name

/-- `Constraint.get_xdc`: render one constraint against a port name,
following the `string.Template` patterns of `nmigen/build/platform.py`. -/
def Constraint.get_xdc : Constraint → String → String
  | .pins ids, name =>
      match ids with
      | [p] => "set_property PACKAGE_PIN " ++ p ++ " [get_ports " ++ name ++ "]\n"
      | _ => pinsXdcAux ids 0 name
  | .iostandard n, name =>
      "set_property IOSTANDARD " ++ n ++ " [get_ports " ++ name ++ "]\n"
  | .drive s, name =>
      "set_property DRIVE " ++ toString s ++ " [get_ports " ++ name ++ "]\n"
  | .misc m, name =>
      "set_property " ++ String.mk (joinSpace (splitOnEqAux m.data [])) ++
        " [get_ports " ++ name ++ "]\n"

/-- A vendor-attribute value on a signal: either a `Constraint` or some
other scalar (`isconstraint` distinguishes the two in the source). -/
inductive AttrValue where
  | constraint (c : Constraint)
  | scalar (s : String)

/-- The `isconstraint` filter of `nmigen/build/platform.py`, returning
the constraint when the attribute value is one. -/
def attrConstraint : AttrValue → Option Constraint
  | .constraint c => some c
  | .scalar _ => none

/-- The slice of the `Signal` class that `compose_xdc_from_signal`
reads: its name and its ordered vendor-attribute mapping. -/
structure Signal where
  name : String
  attrs : List (String × AttrValue)

/-- Translated from `nmigen/build/platform.py`: collect the
`Constraint`-valued attributes of the signal; if there are none return
the empty string, otherwise a `# signal-name` comment line followed by
each constraint rendered against the supplied port name. -/
def compose_xdc_from_signal (name : String) (signal : Signal) : String :=
  let constraints := (signal.attrs.map Prod.snd).filterMap attrConstraint
  if constraints.isEmpty then ""
  else "# " ++ signal.name ++ "\n" ++
    String.join (constraints.map fun c => c.get_xdc name)


/-! ## Supporting lemmas -/

/-- Unsigned normalization lands in `[0, 2^w)` and differs from the
input by a multiple of `2^w`. -/
lemma constNormalize_unsigned_bounds (v : Int) (w : Nat) :
    0 ≤ constNormalize v w false ∧ constNormalize v w false < 2 ^ w ∧
      (2 ^ w : Int) ∣ (v - constNormalize v w false) := by
  have hpos : (0 : Int) < 2 ^ w := by positivity
  have hnorm : constNormalize v w false = v % 2 ^ w := by
    simp [constNormalize]
  refine ⟨?_, ?_, ?_⟩
  · rw [hnorm]; exact Int.emod_nonneg v (by omega)
  · rw [hnorm]; exact Int.emod_lt_of_pos v hpos
  · rw [hnorm]; exact ⟨v / 2 ^ w, by rw [Int.emod_def]; ring⟩

/-- Signed normalization at width `w+1` lands in `[-2^w, 2^w)` and
differs from the input by a multiple of `2^(w+1)`. -/
lemma constNormalize_signed_bounds (v : Int) (w : Nat) :
    -(2 ^ w) ≤ constNormalize v (w + 1) true ∧ constNormalize v (w + 1) true < 2 ^ w ∧
      (2 ^ (w + 1) : Int) ∣ (v - constNormalize v (w + 1) true) := by
  have hK : (0 : Int) < 2 ^ w := by positivity
  have hMK : ((2 : Int) ^ (w + 1)) = 2 * 2 ^ w := by rw [pow_succ]; ring
  have h0 : 0 ≤ v % 2 ^ (w + 1) := Int.emod_nonneg v (by positivity)
  have h1 : v % 2 ^ (w + 1) < 2 ^ (w + 1) := Int.emod_lt_of_pos v (by positivity)
  have hsub : v - v % 2 ^ (w + 1) = 2 ^ (w + 1) * (v / 2 ^ (w + 1)) := by
    rw [Int.emod_def]; ring
  simp only [constNormalize, Nat.add_sub_cancel, true_and]
  split
  · refine ⟨by omega, by omega, ?_⟩
    refine ⟨v / 2 ^ (w + 1) + 1, ?_⟩
    rw [mul_add, mul_one, ← hsub]; ring
  · exact ⟨by omega, by omega, ⟨v / 2 ^ (w + 1), hsub⟩⟩

/-- Unsigned normalization is the identity exactly on `[0, 2^w)`. -/
lemma constNormalize_eq_self_unsigned (v : Int) (w : Nat) :
    constNormalize v w false = v ↔ 0 ≤ v ∧ v < 2 ^ w := by
  constructor
  · intro h
    have hb := constNormalize_unsigned_bounds v w
    rw [h] at hb
    exact ⟨hb.1, hb.2.1⟩
  · rintro ⟨h1, h2⟩
    simp [constNormalize, Int.emod_eq_of_lt h1 h2]

/-- Signed normalization at width `w+1` is the identity exactly on
`[-2^w, 2^w)`. -/
lemma constNormalize_eq_self_signed (v : Int) (w : Nat) :
    constNormalize v (w + 1) true = v ↔ -(2 ^ w) ≤ v ∧ v < 2 ^ w := by
  constructor
  · intro h
    have hb := constNormalize_signed_bounds v w
    rw [h] at hb
    exact ⟨hb.1, hb.2.1⟩
  · rintro ⟨h1, h2⟩
    have hK : (0 : Int) < 2 ^ w := by positivity
    have hMK : ((2 : Int) ^ (w + 1)) = 2 * 2 ^ w := by rw [pow_succ]; ring
    by_cases hv : 0 ≤ v
    · have hm : v % 2 ^ (w + 1) = v := Int.emod_eq_of_lt hv (by omega)
      simp only [constNormalize, Nat.add_sub_cancel, true_and, hm]
      split
      · omega
      · rfl
    · have hm : v % 2 ^ (w + 1) = v + 2 ^ (w + 1) := by
        have hshift := Int.add_mul_emod_self_left (a := v) (b := (2 : Int) ^ (w + 1)) (c := 1)
        rw [mul_one] at hshift
        have hval : (v + 2 ^ (w + 1)) % 2 ^ (w + 1) = v + 2 ^ (w + 1) :=
          Int.emod_eq_of_lt (by omega) (by omega)
        omega
      simp only [constNormalize, Nat.add_sub_cancel, true_and, hm]
      split
      · omega
      · omega

/-- Once the `UserValueRef` cache is filled, no later event changes the
cache or the invocation count. -/
lemma runUV_cached (lower : Nat → Value) (ops : List UVOp) :
    ∀ (st : UVState) (v : Value), st.cache = some v →
      (runUV lower st ops).cache = some v ∧ (runUV lower st ops).count = st.count := by
  induction ops with
  | nil => intro st v h; exact ⟨h, rfl⟩
  | cons op ops ih =>
    intro st v h
    have hstep : (stepUV lower st op).cache = some v ∧
        (stepUV lower st op).count = st.count := by
      cases op with
      | query => simp [stepUV, lazyLower, h]
      | setEnv n => simp [stepUV, h]
    obtain ⟨h1, h2⟩ := ih (stepUV lower st op) v hstep.1
    exact ⟨by simpa [runUV] using h1, by simp only [runUV]; omega⟩

/-! ## Claim theorems -/

/-- Claim C1: adding two unsigned value nodes of widths `w1` and `w2`
yields a node whose inferred shape is `(max w1 w2 + 1, unsigned)`; in
particular a 4-bit plus a 6-bit unsigned constant has shape `(7, false)`. -/
theorem add_unsigned_shape (w1 w2 : Nat) (v1 v2 : Int) :
    shapeOf (.binOp .add (.const v1 w1 false) (.const v2 w2 false))
      = ⟨max w1 w2 + 1, false⟩
    ∧ shapeOf (.binOp .add (.const 0 4 false) (.const 0 6 false)) = ⟨7, false⟩ := by
  constructor
  · simp [shapeOf, addShape, bitwiseBinaryShape]
  · rfl

/-- Claim C7: mixed-sign addition of a 4-bit unsigned and a 4-bit signed
operand infers shape `(6, true)` in either operand order, and the shape
rule for addition is symmetric in general. -/
theorem add_mixed_sign_symmetry (a b : Shape) :
    shapeOf (.binOp .add (.const 0 4 false) (.const 0 4 true)) = ⟨6, true⟩
    ∧ shapeOf (.binOp .add (.const 0 4 true) (.const 0 4 false)) = ⟨6, true⟩
    ∧ addShape a b = addShape b a := by
  refine ⟨rfl, rfl, ?_⟩
  obtain ⟨w1, s1⟩ := a
  obtain ⟨w2, s2⟩ := b
  cases s1 <;> cases s2 <;>
    simp [addShape, bitwiseBinaryShape] <;> omega

/-- Claim C2: shifting a 4-bit value left by a 3-bit unsigned dynamic
amount gives shape `(11, false)`, left by the signed constant `-3` gives
`(7, false)`, right by a 3-bit unsigned amount gives `(4, false)`, and
right by the signed constant `-3` gives `(8, false)`; and the shift
margins `shapeMaxVal`/`shapeMinVal` used by `shlShape`/`shrShape` are
exactly the extremes of the values a shift-amount shape can represent
(the fixed points of `constNormalize`). -/
theorem dynamic_shift_shape :
    shapeOf (.binOp .shl (.const 1 4 false) (wrapConst 4)) = ⟨11, false⟩
    ∧ shapeOf (.binOp .shl (.const 1 4 false) (wrapConst (-3))) = ⟨7, false⟩
    ∧ shapeOf (.binOp .shr (.const 1 4 false) (wrapConst 4)) = ⟨4, false⟩
    ∧ shapeOf (.binOp .shr (.const 1 4 false) (wrapConst (-3))) = ⟨8, false⟩
    ∧ (∀ (w : Nat) (n : Int), constNormalize n w false = n ↔
        shapeMinVal ⟨w, false⟩ ≤ n ∧ n ≤ shapeMaxVal ⟨w, false⟩)
    ∧ (∀ (w : Nat) (n : Int), constNormalize n (w + 1) true = n ↔
        shapeMinVal ⟨w + 1, true⟩ ≤ n ∧ n ≤ shapeMaxVal ⟨w + 1, true⟩) := by
  refine ⟨rfl, rfl, rfl, rfl, ?_, ?_⟩
  · intro w n
    rw [constNormalize_eq_self_unsigned]
    simp only [shapeMinVal, shapeMaxVal, Bool.false_eq_true, if_false]
    omega
  · intro w n
    rw [constNormalize_eq_self_signed]
    simp only [shapeMinVal, shapeMaxVal, if_true, Nat.add_sub_cancel]
    omega

/-- Claim C9: constructing a constant with an explicit signed shape of
width `w+1` normalizes the stored value into the two's-complement range
`[-2^w, 2^w - 1]`, congruent to the input modulo `2^(w+1)`; in particular
`Const(0b10110, (5, True))` stores `-10`. -/
theorem const_signed_normalization (v : Int) (w : Nat) :
    (-(2 ^ w) ≤ constNormalize v (w + 1) true
     ∧ constNormalize v (w + 1) true ≤ 2 ^ w - 1
     ∧ (2 ^ (w + 1) : Int) ∣ (v - constNormalize v (w + 1) true))
    ∧ constNormalize 22 5 true = -10 := by
  have hb := constNormalize_signed_bounds v w
  exact ⟨⟨hb.1, by omega, hb.2.2⟩, by decide⟩

/-- Claim C6: indexing the 4-bit constant `Const(10)` with static index
0 or -1 yields a one-bit `Slice` (`-1` resolving to bits 3..4), while
static index 5 fails with a Range error carrying both the index and the
4-bit width. -/
theorem static_index_slice :
    valueGetItem (wrapConst 10) 0 = .ok (.slice (wrapConst 10) 0 1)
    ∧ valueGetItem (wrapConst 10) (-1) = .ok (.slice (wrapConst 10) 3 4)
    ∧ valueGetItem (wrapConst 10) 5 = .error (.range 5 4) := by
  exact ⟨rfl, rfl, rfl⟩

/-- Claim C3: `matches` with no patterns compiles to the constant false;
with exactly one equality pattern to a direct equality node; with several
patterns to an any-reduction over the concatenation of the per-pattern
equality nodes; and the bit-string `"10--"` on a 4-bit signal compiles to
`(s & 0b1100) == 0b1000`. -/
theorem matches_compilation :
    (∀ (name : String) (w : Nat) (sg : Bool),
      matchesV (.signal name w sg) [] = .ok ⟨.const 0 1 false, []⟩)
    ∧ (∀ (name : String) (w : Nat) (sg : Bool) (v : Int),
      (matchesV (.signal name w sg) [.intPat v]).map MatchOut.node
        = .ok (.binOp .eq (.signal name w sg) (wrapConst v)))
    ∧ (∀ (name : String) (w : Nat) (sg : Bool) (v1 v2 : Int),
      (matchesV (.signal name w sg) [.intPat v1, .intPat v2]).map MatchOut.node
        = .ok (.reduceAny (.cat [.binOp .eq (.signal name w sg) (wrapConst v1),
                                 .binOp .eq (.signal name w sg) (wrapConst v2)])))
    ∧ matchesV (.signal "s" 4 false) [.strPat "10--"]
        = .ok ⟨.binOp .eq (.binOp .and (.signal "s" 4 false) (.const 12 4 false))
                          (.const 8 4 false), []⟩ :=
  ⟨fun _ _ _ => rfl, fun _ _ _ _ => rfl, fun _ _ _ _ _ => rfl, rfl⟩

/-- Claim C4: a bit-string pattern with characters other than `0`, `1`,
`-` or with a length different from the signal's width makes `matches`
fail with a fatal error, while a bare integer pattern wider than the
signal only surfaces a non-fatal never-true advisory warning and still
produces the equality node. -/
theorem matches_error_handling (name : String) (w : Nat) (sg : Bool) (p q : String)
    (v : Int)
    (hq : hasInvalidBit q = true)
    (hp : hasInvalidBit p = false) (hlen : p.length ≠ w)
    (hv : w < bitsFor v) :
    matchesV (.signal name w sg) [.strPat q] = .error (.invalidBits q)
    ∧ matchesV (.signal name w sg) [.strPat p] = .error (.widthMismatch p w)
    ∧ matchesV (.signal name w sg) [.intPat v]
        = .ok ⟨.binOp .eq (.signal name w sg) (wrapConst v), [.neverTrue v w]⟩ := by
  have hsw : (shapeOf (.signal name w sg)).width = w := rfl
  have h1 : compileOne (.signal name w sg) (.strPat q) = .error (.invalidBits q) := by
    simp [compileOne, hq]
  have h2 : compileOne (.signal name w sg) (.strPat p)
      = .error (.widthMismatch p w) := by
    simp [compileOne, hp, hsw, hlen]
  have h3 : compileOne (.signal name w sg) (.intPat v)
      = .ok (.binOp .eq (.signal name w sg) (wrapConst v), [.neverTrue v w]) := by
    simp [compileOne, hsw, hv]
  refine ⟨?_, ?_, ?_⟩
  · simp [matchesV, compileAll, h1]
  · simp [matchesV, compileAll, h2]
  · simp [matchesV, compileAll, h3]

/-- Witness for C4 at the test inputs: a 4-bit signal with the patterns
`"abc"`, `"--"` and `0b10110`. -/
theorem matches_error_handling_witness :
    matchesV (.signal "s" 4 false) [.strPat "abc"] = .error (.invalidBits "abc")
    ∧ matchesV (.signal "s" 4 false) [.strPat "--"] = .error (.widthMismatch "--" 4)
    ∧ matchesV (.signal "s" 4 false) [.intPat 22]
        = .ok ⟨.binOp .eq (.signal "s" 4 false) (wrapConst 22), [.neverTrue 22 4]⟩ :=
  matches_error_handling "s" 4 false "--" "abc" 22 (by decide) (by decide)
    (by decide) (by decide)

/-- Claim C5: reading an Array with a literal index hands back the stored
element and never changes the Array; the first dynamic read freezes it,
after which assignment, deletion and insertion all fail with a
mutation-after-freeze error naming the freezing index, a second dynamic
read still succeeds (keeping the original trigger), and no operation
whatsoever unfreezes a frozen Array. -/
theorem array_freeze_lifecycle (b : ArrayM) (i : Nat) (elems : List Int) (t : String)
    (op : ArrOp) :
    (arrGetLit b i).2 = b
    ∧ (arrGetLit b i).1 = b.elems.get? i
    ∧ (arrGetLit ⟨[1, 2, 3], none⟩ 1).1 = some 2
    ∧ (arrGetDyn ⟨[1, 2, 3], none⟩ "s1").2 = ⟨[1, 2, 3], some "s1"⟩
    ∧ arrSet ⟨[1, 2, 3], some "s1"⟩ 1 2 = .error (.mutationAfterFreeze "s1")
    ∧ arrDel ⟨[1, 2, 3], some "s1"⟩ 1 = .error (.mutationAfterFreeze "s1")
    ∧ arrInsert ⟨[1, 2, 3], some "s1"⟩ 1 2 = .error (.mutationAfterFreeze "s1")
    ∧ (arrGetDyn ⟨[1, 2, 3], some "s1"⟩ "s2").1 = ⟨[1, 2, 3], "s2"⟩
    ∧ (arrGetDyn ⟨[1, 2, 3], some "s1"⟩ "s2").2.frozenAt = some "s1"
    ∧ (stepArr ⟨elems, some t⟩ op).frozenAt = some t := by
  refine ⟨rfl, rfl, rfl, rfl, rfl, rfl, rfl, rfl, rfl, ?_⟩
  cases op <;> simp [stepArr, arrGetLit, arrGetDyn, arrSet, arrDel, arrInsert]

/-- Claim C8: after the first query the deferred computation has run
exactly once; any further sequence of shape/value queries and mutations
of the underlying data leaves the invocation count at one, and the
reported shape stays the shape of the first (memoized) lowering; the
mock scenario (lowering `1`, then mutating the data to `2` and querying
again) still reports shape `(1, false)`. -/
theorem user_value_memoization (lower : Nat → Value) (env0 : Nat) (ops : List UVOp) :
    (stepUV lower ⟨env0, none, 0⟩ .query).count = 1
    ∧ (runUV lower (stepUV lower ⟨env0, none, 0⟩ .query) ops).count = 1
    ∧ uvShape lower (runUV lower (stepUV lower ⟨env0, none, 0⟩ .query) ops)
        = shapeOf (lower env0)
    ∧ uvShape (fun n => wrapConst (n : Int))
        (runUV (fun n => wrapConst (n : Int))
          (stepUV (fun n => wrapConst (n : Int)) ⟨1, none, 0⟩ .query)
          [.setEnv 2, .query]) = ⟨1, false⟩ := by
  have hst : stepUV lower ⟨env0, none, 0⟩ .query = ⟨env0, some (lower env0), 1⟩ := rfl
  have hc := runUV_cached lower ops (stepUV lower ⟨env0, none, 0⟩ .query)
    (lower env0) (by rw [hst])
  refine ⟨rfl, ?_, ?_, rfl⟩
  · rw [hc.2, hst]
  · simp [uvShape, lazyLower, hc.1]

/-- Claim C10: `compose_xdc_from_signal` returns the empty string exactly
when no attribute value is a `Constraint`; non-`Constraint` attributes
are ignored; and with constraints present it emits a `# signal-name`
comment followed by each constraint rendered against the supplied port
name (not the signal's own name), as in the two test scenarios. -/
theorem compose_xdc_spec :
    (∀ (name : String) (sig : Signal),
      compose_xdc_from_signal name sig = "" ↔
        (sig.attrs.map Prod.snd).filterMap attrConstraint = [])
    ∧ (∀ (name : String) (sig : Signal) (k s : String),
      compose_xdc_from_signal name ⟨sig.name, (k, .scalar s) :: sig.attrs⟩
        = compose_xdc_from_signal name sig)
    ∧ compose_xdc_from_signal "foo" ⟨"foo", []⟩ = ""
    ∧ compose_xdc_from_signal "foo"
        ⟨"foo_name", [("misc", .constraint (miscOfPairBool "IOB" true))]⟩
        = "# foo_name\nset_property IOB TRUE [get_ports foo]\n"
    ∧ compose_xdc_from_signal "foo"
        ⟨"foo_name", [("misc", .constraint (miscOfPairBool "IOB" true)),
                      ("iostandard", .constraint (.iostandard "LVCMOS12"))]⟩
        = "# foo_name\nset_property IOB TRUE [get_ports foo]\nset_property IOSTANDARD LVCMOS12 [get_ports foo]\n" := by
  refine ⟨?_, ?_, rfl, by decide, by decide⟩
  · intro name sig
    cases h : (sig.attrs.map Prod.snd).filterMap attrConstraint with
    | nil => simp [compose_xdc_from_signal, h]
    | cons c cs =>
      simp only [compose_xdc_from_signal, h, List.isEmpty_cons, Bool.false_eq_true,
        if_false]
      constructor
      · intro heq
        exfalso
        have hlen := congrArg String.length heq
        rw [String.length_append, String.length_append, String.length_append] at hlen
        have h2 : ("# " : String).length = 2 := rfl
        have h0 : ("" : String).length = 0 := rfl
        omega
      · intro heq
        exact absurd heq (List.cons_ne_nil c cs)
  · intro name sig k s
    rfl
